import Mathlib

/-!
Verification development for the Optimize_With_Optuna repository.

The repository contains two generations of the same backtesting core:
  * `src/strategy_base.py`   + `src/strategy_optimizer.py`  (current pipeline,
    used by `examples/optimize_and_report.py`), and
  * `src/strategy_management.py` + `src/optimization.py`    (older pipeline).

Both share the same event-driven trade loop (`execute_trades`) but differ in
the performance metrics and in the optimizer objective.  We embed both.

Prices, PnL values and metric values are modelled as exact rationals (`ℚ`);
where the source computes a square root (standard deviations, the √252
annualisation factor) we use real numbers and `Real.sqrt`.  Timestamps are
natural numbers (the pandas index values); the simulator only reads, compares
and copies them.
-/

namespace OWO

/-- Side of a position/trade: `'long'` or `'short'` in the Python dicts. -/
inductive Side where
  | long : Side
  | short : Side
deriving DecidableEq, Repr

/-- One row of the signal frame as consumed by `execute_trades`:
its index value (`signals.index[i]`), its close price
(`signals['close'].iloc[i]`) and its signal (`signals['signal'].iloc[i]`,
an element of {-1, 0, 1}). -/
structure Bar where
  time : ℕ
  close : ℚ
  signal : ℤ
deriving DecidableEq, Repr

/-- The transient `position` dict of the trade loop:
`{'entry_time': ..., 'entry_price': ..., 'type': ...}`. -/
structure Position where
  entryTime : ℕ
  entryPrice : ℚ
  side : Side
deriving DecidableEq, Repr

/-- A trade record as appended to the `trades` list. -/
structure Trade where
  entryTime : ℕ
  exitTime : ℕ
  entryPrice : ℚ
  exitPrice : ℚ
  side : Side
  pnl : ℚ
deriving DecidableEq, Repr

/-- `BaseStrategy._calculate_pnl` (strategy_base.py line 132, and inlined at
strategy_management.py lines 69-74): fractional return of a closed position. -/
def calcPnl (p : Position) (exitPrice : ℚ) : ℚ :=
  match p.side with
  | Side.long => (exitPrice - p.entryPrice) / p.entryPrice
  | Side.short => (p.entryPrice - exitPrice) / p.entryPrice

/-- The trade appended when a position is closed at time `t`, price `px`. -/
def closeTrade (p : Position) (t : ℕ) (px : ℚ) : Trade :=
  { entryTime := p.entryTime, exitTime := t, entryPrice := p.entryPrice,
    exitPrice := px, side := p.side, pnl := calcPnl p px }

/-- True when the bar's signal is opposite to the open position's side
(`long` and signal == -1, or `short` and signal == 1). -/
def opposes (p : Position) (sig : ℤ) : Bool :=
  (p.side = Side.long && sig = -1) || (p.side = Side.short && sig = 1)

/-- The new position opened on a bar with non-zero signal:
side is `long` if signal == 1 else `short`. -/
def openPos (b : Bar) : Position :=
  { entryTime := b.time, entryPrice := b.close,
    side := if b.signal = 1 then Side.long else Side.short }

/-- The body of the `for i in range(1, len(signals))` loop shared by both
`execute_trades` implementations: first close the open position if the
incoming signal opposes it, then (if no position is open and the signal is
non-zero) open a new position at this bar. -/
def simStep (st : List Trade × Option Position) (b : Bar) :
    List Trade × Option Position :=
  let afterClose : List Trade × Option Position :=
    match st.2 with
    | some p =>
        if opposes p b.signal then (st.1 ++ [closeTrade p b.time b.close], none)
        else (st.1, some p)
    | none => (st.1, none)
  match afterClose.2 with
  | some p => (afterClose.1, some p)
  | none =>
      if b.signal ≠ 0 then (afterClose.1, some (openPos b))
      else (afterClose.1, none)

/-- The loop over bars 1..n-1 (index 0 is skipped), starting from no trades
and no open position. -/
def simLoop (rest : List Bar) : List Trade × Option Position :=
  rest.foldl simStep ([], none)

/-- Last bar of a non-empty series; for the empty series (never consulted)
we return a dummy.  In the source this is `signals.index[-1]` /
`signals['close'].iloc[-1]`. -/
def lastBar (bars : List Bar) : Bar :=
  bars.getLast?.getD { time := 0, close := 0, signal := 0 }

/-- `BaseStrategy.execute_trades` (strategy_base.py lines 73-126; the loop of
strategy_management.py lines 54-116 is identical up to logging): run the loop
from the second bar on, then force-close any remaining open position at the
last bar's close price and timestamp. -/
def executeTrades (bars : List Bar) : List Trade :=
  match bars with
  | [] => []
  | _ :: rest =>
      let st := simLoop rest
      match st.2 with
      | none => st.1
      | some p =>
          st.1 ++ [closeTrade p (lastBar bars).time (lastBar bars).close]

/-- Ghost variant of `simStep` that counts position openings instead of
recording trades; used to state that every opened position ends up closed in
the returned ledger. -/
def openCountStep (st : ℕ × Option Position) (b : Bar) : ℕ × Option Position :=
  let afterClose : ℕ × Option Position :=
    match st.2 with
    | some p => if opposes p b.signal then (st.1, none) else (st.1, some p)
    | none => (st.1, none)
  match afterClose.2 with
  | some p => (afterClose.1, some p)
  | none =>
      if b.signal ≠ 0 then (afterClose.1 + 1, some (openPos b))
      else (afterClose.1, none)

/-- Number of positions opened during one run of the trade loop. -/
def numOpens (bars : List Bar) : ℕ :=
  match bars with
  | [] => 0
  | _ :: rest => (rest.foldl openCountStep (0, none)).1

/-- 1 if a position is open, 0 otherwise. -/
def posCount : Option Position → ℕ
  | none => 0
  | some _ => 1

lemma opposes_ne_zero {p : Position} {s : ℤ} (h : opposes p s = true) :
    s ≠ 0 := by
  rcases hps : p.side <;> simp [opposes, hps] at h <;> omega

lemma simStep_openCount (b : Bar) (tr : List Trade) (pos : Option Position)
    (n : ℕ) :
    (simStep (tr, pos) b).2 = (openCountStep (n, pos) b).2 ∧
    (simStep (tr, pos) b).1.length + posCount (simStep (tr, pos) b).2 + n =
      (openCountStep (n, pos) b).1 + tr.length + posCount pos := by
  rcases pos with _ | p
  · by_cases hsig : b.signal = 0 <;>
      simp [simStep, openCountStep, posCount, hsig] <;> omega
  · by_cases hop : opposes p b.signal
    · have hsig := opposes_ne_zero hop
      simp [simStep, openCountStep, posCount, hop, hsig] <;> omega
    · simp [simStep, openCountStep, posCount, hop] <;> omega

lemma simLoop_openCount (l : List Bar) : ∀ (tr : List Trade)
    (pos : Option Position) (n : ℕ),
    (l.foldl simStep (tr, pos)).2 = (l.foldl openCountStep (n, pos)).2 ∧
    (l.foldl simStep (tr, pos)).1.length +
        posCount (l.foldl simStep (tr, pos)).2 + n =
      (l.foldl openCountStep (n, pos)).1 + tr.length + posCount pos := by
  induction l with
  | nil => intro tr pos n; simp; omega
  | cons b bs ih =>
    intro tr pos n
    obtain ⟨h2, h1⟩ := simStep_openCount b tr pos n
    rcases e1 : simStep (tr, pos) b with ⟨tr1, pos1⟩
    rcases e2 : openCountStep (n, pos) b with ⟨n2, pos2⟩
    rw [e1, e2] at h2 h1
    simp only at h2 h1
    subst h2
    obtain ⟨ih2, ih1⟩ := ih tr1 pos1 n2
    constructor
    · simpa [List.foldl_cons, e1, e2] using ih2
    · simp only [List.foldl_cons, e1, e2]
      omega

/-- The ledger is internally ordered: every trade closes no earlier than it
opens, and consecutive trades do not overlap. -/
def tradesOrdered (tr : List Trade) : Prop :=
  (∀ t ∈ tr, t.entryTime ≤ t.exitTime) ∧
  List.Chain' (fun a b => a.exitTime ≤ b.entryTime) tr

/-- Loop invariant for the trade loop: trades so far are ordered, all their
times are at most `m` (the time of the last processed bar), and an open
position also opened no later than `m` and no earlier than the last exit. -/
def stInv (st : List Trade × Option Position) (m : ℕ) : Prop :=
  tradesOrdered st.1 ∧
  (∀ t ∈ st.1, t.exitTime ≤ m) ∧
  ∀ p, st.2 = some p →
    p.entryTime ≤ m ∧ ∀ t ∈ st.1, t.exitTime ≤ p.entryTime

lemma appendClose_ordered {tr : List Trade} {p : Position} {T : ℕ} {px : ℚ}
    (h : tradesOrdered tr) (hle : ∀ t ∈ tr, t.exitTime ≤ p.entryTime)
    (hT : p.entryTime ≤ T) :
    tradesOrdered (tr ++ [closeTrade p T px]) := by
  obtain ⟨hee, hch⟩ := h
  constructor
  · intro t ht
    rcases List.mem_append.mp ht with ht | ht
    · exact hee t ht
    · simp at ht
      subst ht
      simpa [closeTrade] using hT
  · rw [List.chain'_append]
    refine ⟨hch, by simp, ?_⟩
    intro x hx y hy
    simp at hy
    subst hy
    simp [closeTrade]
    obtain ⟨hne, hxeq⟩ := List.mem_getLast?_eq_getLast hx
    exact hxeq ▸ hle _ (List.getLast_mem hne)

lemma simStep_inv {st : List Trade × Option Position} {m : ℕ}
    (h : stInv st m) {b : Bar} (hb : m < b.time) :
    stInv (simStep st b) b.time := by
  obtain ⟨hord, hexit, hpos⟩ := h
  rcases st with ⟨tr, _ | p⟩
  · by_cases hsig : b.signal = 0
    · have hstep : simStep (tr, none) b = (tr, none) := by
        simp [simStep, hsig]
      rw [hstep]
      exact ⟨hord, fun t ht => le_trans (hexit t ht) (le_of_lt hb),
        fun p hp => by simp at hp⟩
    · have hstep : simStep (tr, none) b = (tr, some (openPos b)) := by
        simp [simStep, hsig]
      rw [hstep]
      refine ⟨hord, fun t ht => le_trans (hexit t ht) (le_of_lt hb), ?_⟩
      intro q hq
      simp at hq
      subst hq
      exact ⟨by simp [openPos],
        fun t ht => le_trans (hexit t ht) (by simp [openPos]; omega)⟩
  · obtain ⟨hpm, hpe⟩ := hpos p rfl
    by_cases hop : opposes p b.signal
    · have hsig := opposes_ne_zero hop
      have hstep : simStep (tr, some p) b =
          (tr ++ [closeTrade p b.time b.close], some (openPos b)) := by
        simp [simStep, hop, hsig]
      rw [hstep]
      refine ⟨appendClose_ordered ⟨hord.1, hord.2⟩ hpe
        (le_trans hpm (le_of_lt hb)), ?_, ?_⟩
      · intro t ht
        rcases List.mem_append.mp ht with ht | ht
        · exact le_trans (hexit t ht) (le_of_lt hb)
        · simp at ht
          subst ht
          simp [closeTrade]
      · intro q hq
        simp at hq
        subst hq
        refine ⟨by simp [openPos], ?_⟩
        intro t ht
        rcases List.mem_append.mp ht with ht | ht
        · exact le_trans (hexit t ht) (by simp [openPos]; omega)
        · simp at ht
          subst ht
          simp [closeTrade, openPos]
    · have hstep : simStep (tr, some p) b = (tr, some p) := by
        simp [simStep, hop]
      rw [hstep]
      refine ⟨hord, fun t ht => le_trans (hexit t ht) (le_of_lt hb), ?_⟩
      intro q hq
      simp at hq
      subst hq
      exact ⟨le_trans hpm (le_of_lt hb), hpe⟩

lemma simLoop_inv : ∀ (l : List Bar) (st : List Trade × Option Position)
    (m : ℕ), stInv st m → (∀ b ∈ l, m < b.time) →
    l.Pairwise (fun a b => a.time < b.time) →
    ∃ m', stInv (l.foldl simStep st) m' ∧ (m' = m ∨ ∃ b ∈ l, m' = b.time) := by
  intro l
  induction l with
  | nil => intro st m h _ _; exact ⟨m, h, Or.inl rfl⟩
  | cons b bs ih =>
    intro st m h hlt hpw
    have h1 : stInv (simStep st b) b.time :=
      simStep_inv h (hlt b (by simp))
    have hlt1 : ∀ b2 ∈ bs, b.time < b2.time := by
      intro b2 hb2
      exact (List.pairwise_cons.mp hpw).1 b2 hb2
    obtain ⟨m', hm1, hm2⟩ := ih (simStep st b) b.time h1 hlt1
      (List.pairwise_cons.mp hpw).2
    refine ⟨m', by simpa using hm1, ?_⟩
    rcases hm2 with hm2 | ⟨b2, hb2, hm2⟩
    · exact Or.inr ⟨b, by simp, hm2⟩
    · exact Or.inr ⟨b2, by simp [hb2], hm2⟩

lemma time_le_lastBar : ∀ (l : List Bar),
    l.Pairwise (fun a b => a.time < b.time) →
    ∀ b ∈ l, b.time ≤ (lastBar l).time := by
  intro l
  induction l with
  | nil => simp
  | cons x xs ih =>
    intro hpw b hb
    rcases xs with _ | ⟨y, tl⟩
    · simp at hb
      subst hb
      simp [lastBar]
    · have hlast : lastBar (x :: y :: tl) = lastBar (y :: tl) := by
        simp [lastBar]
      rw [hlast]
      rcases List.mem_cons.mp hb with hb | hb
      · subst hb
        have hxy : b.time < y.time :=
          (List.pairwise_cons.mp hpw).1 y (by simp)
        exact le_trans (le_of_lt hxy)
          (ih (List.pairwise_cons.mp hpw).2 y (by simp))
      · exact ih (List.pairwise_cons.mp hpw).2 b hb

/-- **C3**: for every price/signal series, if a position is still open after
the forward pass over all bars, `execute_trades` force-closes it at the last
bar's close price and last timestamp; moreover the ledger length equals the
number of positions opened during the run, so the returned trade ledger never
ends with an implicitly open position. -/
theorem C3_forceClose (bars : List Bar) :
    (executeTrades bars).length = numOpens bars ∧
    ∀ b0 rest, bars = b0 :: rest → ∀ p, (simLoop rest).2 = some p →
      executeTrades bars = (simLoop rest).1 ++
        [closeTrade p (lastBar bars).time (lastBar bars).close] := by
  constructor
  · rcases bars with _ | ⟨b0, rest⟩
    · simp [executeTrades, numOpens]
    · obtain ⟨h2, h1⟩ := simLoop_openCount rest [] none 0
      rcases hst : (rest.foldl simStep ([], none)).2 with _ | p
      · have he : executeTrades (b0 :: rest) =
            (rest.foldl simStep ([], none)).1 := by
          simp [executeTrades, simLoop, hst]
        rw [he]
        rw [hst] at h1
        simp [posCount] at h1
        simpa [numOpens] using h1
      · have he : executeTrades (b0 :: rest) =
            (rest.foldl simStep ([], none)).1 ++
              [closeTrade p (lastBar (b0 :: rest)).time
                (lastBar (b0 :: rest)).close] := by
          simp [executeTrades, simLoop, hst]
        rw [he]
        rw [hst] at h1
        simp [posCount] at h1
        simp [numOpens]
        omega
  · intro b0 rest h p hp
    subst h
    simp [simLoop] at hp
    simp [executeTrades, simLoop, hp]

/-- Witness for C3 at a concrete two-bar series whose long entry on the final
bar is force-closed at that same bar. -/
theorem C3_forceClose_witness :
    executeTrades [⟨0, 100, 0⟩, ⟨1, 100, 1⟩] =
      (simLoop [⟨1, 100, 1⟩]).1 ++
        [closeTrade ⟨1, 100, Side.long⟩
          (lastBar [⟨0, 100, 0⟩, ⟨1, 100, 1⟩]).time
          (lastBar [⟨0, 100, 0⟩, ⟨1, 100, 1⟩]).close] :=
  (C3_forceClose _).2 ⟨0, 100, 0⟩ [⟨1, 100, 1⟩] rfl ⟨1, 100, Side.long⟩ rfl

/-- **C7** (amended): with strictly increasing bar timestamps, every trade in
the ledger satisfies entry_time ≤ exit_time (equality only for a position
opened on the final bar and force-closed there), and the ledger is
time-ordered and non-overlapping: each trade's entry time is at or after the
previous trade's exit time. -/
theorem C7_ledger_ordered (bars : List Bar)
    (hs : bars.Pairwise (fun a b => a.time < b.time)) :
    (∀ t ∈ executeTrades bars, t.entryTime ≤ t.exitTime) ∧
    List.Chain' (fun a b => a.exitTime ≤ b.entryTime) (executeTrades bars) := by
  rcases bars with _ | ⟨b0, rest⟩
  · simp [executeTrades]
  · have hinv0 : stInv ([], none) b0.time := by
      refine ⟨⟨by simp, by simp⟩, by simp, ?_⟩
      intro p hp
      simp at hp
    have hlt : ∀ b ∈ rest, b0.time < b.time := (List.pairwise_cons.mp hs).1
    obtain ⟨m', hinv, hm⟩ := simLoop_inv rest ([], none) b0.time hinv0 hlt
      (List.pairwise_cons.mp hs).2
    have hml : m' ≤ (lastBar (b0 :: rest)).time := by
      rcases hm with hm | ⟨b, hb, hm⟩
      · exact hm ▸ time_le_lastBar _ hs b0 (by simp)
      · exact hm ▸ time_le_lastBar _ hs b (by simp [hb])
    rcases hst : (rest.foldl simStep ([], none)).2 with _ | p
    · have he : executeTrades (b0 :: rest) =
          (rest.foldl simStep ([], none)).1 := by
        simp [executeTrades, simLoop, hst]
      rw [he]
      exact ⟨hinv.1.1, hinv.1.2⟩
    · have he : executeTrades (b0 :: rest) =
          (rest.foldl simStep ([], none)).1 ++
            [closeTrade p (lastBar (b0 :: rest)).time
              (lastBar (b0 :: rest)).close] := by
        simp [executeTrades, simLoop, hst]
      rw [he]
      obtain ⟨hpm, hpe⟩ := hinv.2.2 p hst
      have hord := @appendClose_ordered _ p (lastBar (b0 :: rest)).time
        (lastBar (b0 :: rest)).close hinv.1 hpe (le_trans hpm hml)
      exact ⟨hord.1, hord.2⟩

/-- Witness for C7 on a concrete four-bar sorted series containing a flip. -/
theorem C7_ledger_ordered_witness :
    (∀ t ∈ executeTrades
        [⟨0, 100, 0⟩, ⟨1, 100, 1⟩, ⟨2, 110, -1⟩, ⟨3, 120, -1⟩],
      t.entryTime ≤ t.exitTime) ∧
    List.Chain' (fun a b => a.exitTime ≤ b.entryTime)
      (executeTrades
        [⟨0, 100, 0⟩, ⟨1, 100, 1⟩, ⟨2, 110, -1⟩, ⟨3, 120, -1⟩]) :=
  C7_ledger_ordered _ (by simp [List.pairwise_cons])

/-- Counterexample to C7 as stated: a long entry on the final bar is
force-closed on that same bar, producing a trade with entry_time = exit_time,
not entry_time < exit_time. -/
theorem C7_counterexample :
    executeTrades [⟨0, 100, 0⟩, ⟨1, 100, 1⟩] =
      [{ entryTime := 1, exitTime := 1, entryPrice := 100, exitPrice := 100,
         side := Side.long, pnl := 0 }] ∧
    ¬ ((1 : ℕ) < 1) := by
  constructor
  · simp [executeTrades, simLoop, simStep, opposes, openPos, lastBar,
      closeTrade, calcPnl]
  · omega

/-- Running sums `np.cumsum` / `pd.cumsum`, carrying the accumulator. -/
def cumsumFrom (acc : ℚ) : List ℚ → List ℚ
  | [] => []
  | x :: xs => (acc + x) :: cumsumFrom (acc + x) xs

/-- `np.cumsum(profits)`: list of prefix sums. -/
def cumsum (l : List ℚ) : List ℚ := cumsumFrom 0 l

/-- Running products, carrying the accumulator. -/
def cumprodFrom (acc : ℚ) : List ℚ → List ℚ
  | [] => []
  | x :: xs => (acc * x) :: cumprodFrom (acc * x) xs

/-- `.cumprod()`: list of prefix products. -/
def cumprod (l : List ℚ) : List ℚ := cumprodFrom 1 l

/-- Running maxima, carrying the accumulator. -/
def runMaxFrom (acc : ℚ) : List ℚ → List ℚ
  | [] => []
  | x :: xs => (max acc x) :: runMaxFrom (max acc x) xs

/-- `.expanding().max()`: running maximum of a series. -/
def runningMax : List ℚ → List ℚ
  | [] => []
  | x :: xs => x :: runMaxFrom x xs

/-- `.min()` of a series; 0 on the empty list (the source guards this case
with `if not drawdowns.empty else 0`). -/
def listMin : List ℚ → ℚ
  | [] => 0
  | x :: xs => xs.foldl min x

/-- Rational-valued fields of the dict returned by
`BaseStrategy.calculate_performance` in strategy_base.py (lines 138-191).
Its `sharpe_ratio` entry divides by a sample standard deviation (a square
root) and is modelled separately as `baseSharpeRatio` over ℝ. -/
structure BasePerf where
  totalReturn : ℚ
  compoundReturn : ℚ
  totalTrades : ℕ
  winRate : ℚ
  maxDrawdown : ℚ
  profitFactor : ℚ
deriving DecidableEq, Repr

/-- `BaseStrategy.calculate_performance` (strategy_base.py lines 138-191):
total_return is the plain sum of pnl, compound_return the product of
(1+pnl) minus 1, and max_drawdown is computed on the compounded
(cumulative-product) equity curve. -/
def basePerf (trades : List Trade) : BasePerf :=
  if trades = [] then
    { totalReturn := 0, compoundReturn := 0, totalTrades := 0, winRate := 0,
      maxDrawdown := 0, profitFactor := 0 }
  else
    let pnls := trades.map Trade.pnl
    let totalReturn := pnls.sum
    let compoundReturn := (pnls.map (fun p => 1 + p)).prod - 1
    let totalTrades := trades.length
    let winningTrades := (trades.filter (fun t => 0 < t.pnl)).length
    let winRate := (winningTrades : ℚ) / (totalTrades : ℚ)
    let profits := pnls.filter (fun p => 0 < p)
    let losses := (pnls.filter (fun p => p < 0)).map (fun p => |p|)
    let profitFactor := if losses = [] then 0 else profits.sum / losses.sum
    let cumulative := cumprod (pnls.map (fun p => 1 + p))
    let drawdowns :=
      List.zipWith (fun c m => (c - m) / m) cumulative (runningMax cumulative)
    { totalReturn := totalReturn, compoundReturn := compoundReturn,
      totalTrades := totalTrades, winRate := winRate,
      maxDrawdown := |listMin drawdowns|, profitFactor := profitFactor }

/-- `BaseStrategy.calculate_performance` in strategy_management.py
(lines 155-182) computes its `total_return` field as Π(1+pnl) − 1 — the
compounded return, not the additive sum — and has no compound_return field. -/
def mgmtTotalReturn (trades : List Trade) : ℚ :=
  if trades = [] then 0
  else ((trades.map Trade.pnl).map (fun p => 1 + p)).prod - 1

/-- **C1**: for every trade ledger, `calculate_performance` in
strategy_base.py returns total_return equal to the arithmetic sum of the
trades' pnl values and compound_return equal to the product of (1+pnl) over
all trades minus 1. -/
theorem C1_base_returns (trades : List Trade) :
    (basePerf trades).totalReturn = (trades.map Trade.pnl).sum ∧
    (basePerf trades).compoundReturn =
      ((trades.map Trade.pnl).map (fun p => 1 + p)).prod - 1 := by
  by_cases h : trades = []
  · subst h
    simp [basePerf]
  · simp [basePerf, h]

/-- Counterexample to C1 for strategy_management.py: on a two-trade ledger
with pnl = 1/2 each, its `calculate_performance` returns
total_return = (3/2)·(3/2) − 1 = 5/4, not the arithmetic sum 1. -/
theorem C1_counterexample :
    mgmtTotalReturn
        [{ entryTime := 0, exitTime := 1, entryPrice := 100, exitPrice := 150,
           side := Side.long, pnl := 1/2 },
         { entryTime := 1, exitTime := 2, entryPrice := 150, exitPrice := 225,
           side := Side.long, pnl := 1/2 }] = 5/4 ∧
    ([(1 : ℚ)/2, 1/2].sum = 1) ∧ (5 : ℚ)/4 ≠ 1 := by
  refine ⟨?_, by norm_num, by norm_num⟩
  rw [mgmtTotalReturn, if_neg (by simp)]
  norm_num

/-- The `for value in cumulative` loop of
`BaseStrategy._calculate_max_drawdown` (strategy_management.py lines
190-195): update the running peak, then the drawdown `(peak - value)/peak`
(0 when the peak is 0), keeping the maximum. -/
def mddLoop : ℚ → ℚ → List ℚ → ℚ
  | _, maxdd, [] => maxdd
  | peak, maxdd, v :: vs =>
      let pk := if peak < v then v else peak
      let dd := if pk ≠ 0 then (pk - v) / pk else 0
      mddLoop pk (max maxdd dd) vs

/-- `BaseStrategy._calculate_max_drawdown` (strategy_management.py lines
184-196): drawdown over the cumulative-sum path of the pnl sequence, peak
initialised to `cumulative[0]`.  For an empty pnl list the source raises
IndexError at `cumulative[0]`; that case is unreachable from
`calculate_performance` (guarded by `if not trades`) and is mapped to 0. -/
def mgmtMaxDrawdown (profits : List ℚ) : ℚ :=
  match cumsum profits with
  | [] => 0
  | c0 :: cs => mddLoop c0 0 (c0 :: cs)

/-- Stated from the spec's words for C4: the maximum over the cumulative-sum
path of (running peak − value)/(running peak).  ℚ division by zero is 0,
which coincides with the source's `if peak != 0 else 0` guard. -/
def specMaxDrawdown (profits : List ℚ) : ℚ :=
  let path := cumsum profits
  (List.zipWith (fun pk v => (pk - v) / pk) (runningMax path) path).foldl max 0

lemma mddLoop_eq_foldl (vs : List ℚ) : ∀ (peak m : ℚ),
    mddLoop peak m vs =
      (List.zipWith (fun pk v => (pk - v) / pk) (runMaxFrom peak vs) vs).foldl
        max m := by
  induction vs with
  | nil => intro peak m; simp [mddLoop]
  | cons v vs ih =>
    intro peak m
    have hpk : (if peak < v then v else peak) = max peak v := by
      rcases le_or_lt v peak with h | h
      · simp [not_lt.mpr h, max_eq_left h]
      · simp [h, max_eq_right (le_of_lt h)]
    have hdd : (if max peak v ≠ 0 then (max peak v - v) / max peak v else 0)
        = (max peak v - v) / max peak v := by
      by_cases h0 : max peak v = 0
      · simp [h0]
      · simp [h0]
    simp only [mddLoop, runMaxFrom, List.zipWith, List.foldl, hpk, hdd]
    exact ih (max peak v) _

lemma runMaxFrom_of_chain (vs : List ℚ) : ∀ (acc : ℚ),
    List.Chain' (· ≤ ·) (acc :: vs) → runMaxFrom acc vs = vs := by
  induction vs with
  | nil => intro acc _; simp [runMaxFrom]
  | cons v vs ih =>
    intro acc hch
    have h1 : acc ≤ v := (List.chain'_cons.mp hch).1
    have h2 : List.Chain' (· ≤ ·) (v :: vs) := (List.chain'_cons.mp hch).2
    simp [runMaxFrom, max_eq_right h1, ih v h2]

lemma foldl_max_self_zipWith (l : List ℚ) : ∀ (m : ℚ), 0 ≤ m →
    (List.zipWith (fun pk v => (pk - v) / pk) l l).foldl max m = m := by
  induction l with
  | nil => intro m _; simp
  | cons x xs ih =>
    intro m hm
    simp only [List.zipWith, List.foldl, sub_self, zero_div]
    rw [max_eq_left hm]
    exact ih m hm

/-- **C4**: `_calculate_max_drawdown` in strategy_management.py equals, on
every non-empty pnl sequence, the maximum over the cumulative-sum path of
(running peak − value)/(running peak), and is 0 whenever the path never
drops below its running peak (i.e. is nondecreasing). -/
theorem C4_mgmt_maxDrawdown (profits : List ℚ) (h : profits ≠ []) :
    mgmtMaxDrawdown profits = specMaxDrawdown profits ∧
    (List.Chain' (· ≤ ·) (cumsum profits) → mgmtMaxDrawdown profits = 0) := by
  constructor
  · rcases hc : cumsum profits with _ | ⟨c0, cs⟩
    · simp [mgmtMaxDrawdown, specMaxDrawdown, hc]
    · simp only [mgmtMaxDrawdown, specMaxDrawdown, hc, runningMax]
      rw [mddLoop_eq_foldl]
      have hhead : runMaxFrom c0 (c0 :: cs) = c0 :: runMaxFrom c0 cs := by
        simp [runMaxFrom]
      rw [hhead]
  · intro hch
    rcases hc : cumsum profits with _ | ⟨c0, cs⟩
    · simp [mgmtMaxDrawdown, hc]
    · rw [hc] at hch
      simp only [mgmtMaxDrawdown, hc]
      rw [mddLoop_eq_foldl]
      have hhead : runMaxFrom c0 (c0 :: cs) = c0 :: cs := by
        simp [runMaxFrom, runMaxFrom_of_chain cs c0 hch]
      rw [hhead]
      exact foldl_max_self_zipWith (c0 :: cs) 0 le_rfl

/-- Witness for C4 at the one-element pnl sequence [1/2]. -/
theorem C4_mgmt_maxDrawdown_witness :
    mgmtMaxDrawdown [(1 : ℚ)/2] = specMaxDrawdown [(1 : ℚ)/2] ∧
    (List.Chain' (· ≤ ·) (cumsum [(1 : ℚ)/2]) →
      mgmtMaxDrawdown [(1 : ℚ)/2] = 0) :=
  C4_mgmt_maxDrawdown [(1 : ℚ)/2] (by simp)

/-- Counterexample to C4 for strategy_base.py: its `calculate_performance`
computes max_drawdown on the compounded (cumulative-product) equity curve,
not the cumulative sum: on pnl = [1/2, −1/2] it returns 1/2 while the
cumulative-sum formula of the claim gives 1. -/
theorem C4_counterexample :
    (basePerf
        [{ entryTime := 0, exitTime := 1, entryPrice := 100, exitPrice := 150,
           side := Side.long, pnl := 1/2 },
         { entryTime := 1, exitTime := 2, entryPrice := 150, exitPrice := 75,
           side := Side.long, pnl := -1/2 }]).maxDrawdown = 1/2 ∧
    specMaxDrawdown [(1 : ℚ)/2, -1/2] = 1 ∧ (1 : ℚ)/2 ≠ 1 := by
  refine ⟨?_, ?_, by norm_num⟩
  · rw [basePerf, if_neg (by simp)]
    norm_num [cumprod, cumprodFrom, runningMax, runMaxFrom, listMin]
  · norm_num [specMaxDrawdown, cumsum, cumsumFrom, runningMax, runMaxFrom]

/-- `np.mean` / `Series.mean` over the reals (NaN on the empty list is not
reachable in the guarded uses below). -/
noncomputable def meanR (l : List ℝ) : ℝ := l.sum / l.length

/-- `np.std`: population standard deviation (ddof = 0). -/
noncomputable def stdPop (l : List ℝ) : ℝ :=
  Real.sqrt ((l.map (fun x => (x - meanR l) ^ 2)).sum / l.length)

/-- `pandas.Series.std`: sample standard deviation (ddof = 1). -/
noncomputable def stdSample (l : List ℝ) : ℝ :=
  Real.sqrt ((l.map (fun x => (x - meanR l) ^ 2)).sum / ((l.length : ℝ) - 1))

/-- `BaseStrategy._calculate_sharpe_ratio` (strategy_management.py lines
198-209): 0 on no trades; excess = pnl − risk_free_rate/252 (default 0.02);
0 when the population std of the excess returns is 0; otherwise
mean/std × √252. -/
noncomputable def mgmtSharpeRatio (profits : List ℚ) (riskFreeRate : ℝ) :
    ℝ :=
  if profits = [] then 0
  else
    let excess := profits.map (fun p => (p : ℝ) - riskFreeRate / 252)
    if stdPop excess = 0 then 0
    else meanR excess / stdPop excess * Real.sqrt 252

/-- The default `risk_free_rate = 0.02` of `_calculate_sharpe_ratio`. -/
noncomputable def riskFreeRateDefault : ℝ := 2/100

/-- The `sharpe_ratio` entry of `calculate_performance` in strategy_base.py
(lines 179-181): plain mean/std of the pnl series (pandas sample std), with
no risk-free adjustment and no annualisation; 0 for fewer than 2 trades or
zero std. -/
noncomputable def baseSharpeRatio (trades : List Trade) : ℝ :=
  let returns := trades.map (fun t => (t.pnl : ℝ))
  if 1 < returns.length then
    if stdSample returns = 0 then 0 else meanR returns / stdSample returns
  else 0

/-- Stated from the spec's words for C5: sharpe_ratio =
mean(excess)/std(excess) × √252 with excess = pnl − 0.02/252, and 0 when the
std is 0 or there are fewer than 2 trades. -/
noncomputable def specSharpeRatio (profits : List ℚ) : ℝ :=
  let excess := profits.map (fun p => (p : ℝ) - (2/100 : ℝ) / 252)
  if profits.length < 2 then 0
  else if stdPop excess = 0 then 0
  else meanR excess / stdPop excess * Real.sqrt 252

lemma stdPop_singleton (x : ℝ) : stdPop [x] = 0 := by
  simp [stdPop, meanR]

/-- **C5**: `_calculate_sharpe_ratio` in strategy_management.py at the
default risk-free rate 0.02 equals mean(excess)/std(excess) × √252 with
excess = pnl − 0.02/252, and returns 0 when the std is 0 or there are fewer
than 2 trades. -/
theorem C5_mgmt_sharpe (profits : List ℚ) :
    mgmtSharpeRatio profits (2/100) = specSharpeRatio profits ∧
    (profits.length < 2 → mgmtSharpeRatio profits (2/100) = 0) ∧
    (stdPop (profits.map (fun p => (p : ℝ) - (2/100 : ℝ) / 252)) = 0 →
      mgmtSharpeRatio profits (2/100) = 0) := by
  refine ⟨?_, ?_, ?_⟩
  · rcases profits with _ | ⟨a, _ | ⟨b, l⟩⟩
    · simp [mgmtSharpeRatio, specSharpeRatio]
    · simp [mgmtSharpeRatio, specSharpeRatio, stdPop_singleton]
    · have hlen : ¬ (a :: b :: l).length < 2 := by simp
      simp only [mgmtSharpeRatio, specSharpeRatio, if_neg hlen,
        if_neg (List.cons_ne_nil a (b :: l))]
  · intro hlen
    rcases profits with _ | ⟨a, _ | ⟨b, l⟩⟩
    · simp [mgmtSharpeRatio]
    · simp [mgmtSharpeRatio, stdPop_singleton]
    · simp at hlen
      omega
  · intro hstd
    rcases profits with _ | ⟨a, l⟩
    · simp [mgmtSharpeRatio]
    · simp only [mgmtSharpeRatio, if_neg (List.cons_ne_nil a l)]
      rw [if_pos hstd]

/-- Witness for C5 at the one-element pnl sequence [3/7]. -/
theorem C5_mgmt_sharpe_witness : mgmtSharpeRatio [(3 : ℚ)/7] (2/100) = 0 :=
  (C5_mgmt_sharpe [(3 : ℚ)/7]).2.1 (by simp)

/-- Two-trade ledger with pnl = [1/10, 3/10] used to separate the two
sharpe-ratio implementations. -/
def c5Trades : List Trade :=
  [{ entryTime := 0, exitTime := 1, entryPrice := 100, exitPrice := 110,
     side := Side.long, pnl := 1/10 },
   { entryTime := 1, exitTime := 2, entryPrice := 100, exitPrice := 130,
     side := Side.long, pnl := 3/10 }]

/-- Counterexample to C5 for strategy_base.py: the `sharpe_ratio` field of
its `calculate_performance` is mean/std of raw pnl (sample std, no risk-free
rate, no √252): on pnl = [1/10, 3/10] it is (1/5)/√(1/50) < 2 while the
claimed formula gives (2 − 1/1260)·√252 > 2. -/
theorem C5_counterexample :
    c5Trades.map Trade.pnl = [(1 : ℚ)/10, 3/10] ∧
    baseSharpeRatio c5Trades ≠ specSharpeRatio [(1 : ℚ)/10, 3/10] := by
  refine ⟨by simp [c5Trades], ?_⟩
  have hret : c5Trades.map (fun t => (t.pnl : ℝ)) = [(1/10 : ℝ), 3/10] := by
    simp [c5Trades]
  have hmean : meanR [(1/10 : ℝ), 3/10] = 1/5 := by
    norm_num [meanR]
  have hstd : stdSample [(1/10 : ℝ), 3/10] = Real.sqrt (1/50) := by
    rw [stdSample, hmean]
    norm_num
  have hb : baseSharpeRatio c5Trades = (1/5 : ℝ) / Real.sqrt (1/50) := by
    simp only [baseSharpeRatio, hret]
    rw [hstd, hmean]
    have hne : Real.sqrt (1/50) ≠ 0 := by
      rw [Real.sqrt_ne_zero']
      norm_num
    simp [hne]
  have hex : ([(1 : ℚ)/10, 3/10]).map
      (fun p => (p : ℝ) - (2/100 : ℝ) / 252) =
      [(1/10 : ℝ) - 1/12600, (3/10 : ℝ) - 1/12600] := by
    push_cast
    norm_num
  have hmean2 : meanR [(1/10 : ℝ) - 1/12600, (3/10 : ℝ) - 1/12600] =
      1/5 - 1/12600 := by
    norm_num [meanR]
  have hstd2 : stdPop [(1/10 : ℝ) - 1/12600, (3/10 : ℝ) - 1/12600] =
      1/10 := by
    rw [stdPop, hmean2]
    have harg : (([(1/10 : ℝ) - 1/12600, (3/10 : ℝ) - 1/12600]).map
        (fun x => (x - (1/5 - 1/12600)) ^ 2)).sum /
        (([(1/10 : ℝ) - 1/12600, (3/10 : ℝ) - 1/12600]).length : ℝ) =
        (1/10 : ℝ) ^ 2 := by
      norm_num
    rw [harg, Real.sqrt_sq (by norm_num)]
  have hs : specSharpeRatio [(1 : ℚ)/10, 3/10] =
      ((2 : ℝ) - 1/1260) * Real.sqrt 252 := by
    simp only [specSharpeRatio, hex]
    rw [hmean2, hstd2]
    norm_num
  have h2 : baseSharpeRatio c5Trades < 2 := by
    rw [hb]
    have hpos : (0 : ℝ) < Real.sqrt (1/50) := by
      rw [Real.sqrt_pos]
      norm_num
    rw [div_lt_iff hpos]
    have h110 : (1/10 : ℝ) < Real.sqrt (1/50) := by
      rw [Real.lt_sqrt (by norm_num)]
      norm_num
    nlinarith
  have h3 : (2 : ℝ) < specSharpeRatio [(1 : ℚ)/10, 3/10] := by
    rw [hs]
    have h15 : (15 : ℝ) < Real.sqrt 252 := by
      rw [Real.lt_sqrt (by norm_num)]
      norm_num
    nlinarith
  exact ne_of_lt (lt_trans h2 h3)

lemma basePerf_totalTrades (trades : List Trade) :
    (basePerf trades).totalTrades = trades.length := by
  by_cases h : trades = []
  · subst h
    simp [basePerf]
  · simp [basePerf, h]

lemma basePerf_totalReturn (trades : List Trade) :
    (basePerf trades).totalReturn = (trades.map Trade.pnl).sum := by
  by_cases h : trades = []
  · subst h
    simp [basePerf]
  · simp [basePerf, h]

/-- The scalar value returned by an objective evaluation: either the
`float('-inf')` rejection sentinel or a finite value. -/
inductive ObjVal where
  | negInf : ObjVal
  | val : ℚ → ObjVal
deriving DecidableEq, Repr

/-- `StrategyOptimizer._objective` (strategy_optimizer.py lines 126-139),
with the injected strategy abstracted: `validate` stands for
`strategy_class(params).validate_parameters(params)` and `gen params` for the
signal frame `generate_signals` produces on the study data.  Rejects
pre-simulation on failed validation, rejects on fewer than 10 trades,
otherwise returns the metrics' total_return. -/
def optimizerObjective {P : Type} (validate : P → Bool)
    (gen : P → List Bar) (params : P) : ObjVal :=
  if ¬ validate params then ObjVal.negInf
  else
    let metrics := basePerf (executeTrades (gen params))
    if metrics.totalTrades < 10 then ObjVal.negInf
    else ObjVal.val metrics.totalReturn

/-- `StrategyOptimizer.objective` (optimization.py lines 42-87): rejects when
fast_ma ≥ slow_ma before simulating, then runs the simulation and returns
`performance['total_return']` (the compounded total return of
strategy_management.py) with NO minimum-trade-count check. -/
def optimizationObjective (fastMa slowMa : ℤ) (gen : ℤ × ℤ → List Bar) :
    ObjVal :=
  if slowMa ≤ fastMa then ObjVal.negInf
  else ObjVal.val (mgmtTotalReturn (executeTrades (gen (fastMa, slowMa))))

/-- **C2**: `_objective` in strategy_optimizer.py returns −∞ without running
the simulation when validation fails (the result does not depend on the
simulated series), returns −∞ when the simulated ledger has fewer than 10
trades, and otherwise returns the additive total_return. -/
theorem C2_objective {P : Type} (validate : P → Bool)
    (gen gen2 : P → List Bar) (params : P) :
    (validate params = false →
      optimizerObjective validate gen params = ObjVal.negInf ∧
      optimizerObjective validate gen params =
        optimizerObjective validate gen2 params) ∧
    (validate params = true →
      ((executeTrades (gen params)).length < 10 →
        optimizerObjective validate gen params = ObjVal.negInf) ∧
      (10 ≤ (executeTrades (gen params)).length →
        optimizerObjective validate gen params =
          ObjVal.val ((executeTrades (gen params)).map Trade.pnl).sum)) := by
  constructor
  · intro hv
    simp [optimizerObjective, hv]
  · intro hv
    constructor
    · intro hlen
      simp [optimizerObjective, hv, basePerf_totalTrades, hlen]
    · intro hlen
      simp [optimizerObjective, hv, basePerf_totalTrades,
        Nat.not_lt.mpr hlen, basePerf_totalReturn]

/-- Four-bar series: a long opened at bar 1, flipped to a short at bar 2,
force-closed at bar 3; two trades in total. -/
def demo4 : List Bar :=
  [⟨0, 100, 0⟩, ⟨1, 100, 1⟩, ⟨2, 110, -1⟩, ⟨3, 120, -1⟩]

/-- Witness for C2: with a vacuously true validator and a series producing
2 (< 10) trades, the objective returns −∞. -/
theorem C2_objective_witness :
    optimizerObjective (fun _ : ℕ => true) (fun _ => demo4) 0 =
      ObjVal.negInf :=
  ((C2_objective (fun _ : ℕ => true) (fun _ => demo4)
      (fun _ => demo4) 0).2 rfl).1 (by
    simp [demo4, executeTrades, simLoop, simStep, opposes, openPos, lastBar,
      closeTrade, calcPnl])

/-- Three-bar series producing exactly 2 trades (a closed long and a
force-closed zero-pnl short). -/
def demo3 : List Bar := [⟨0, 100, 0⟩, ⟨1, 100, 1⟩, ⟨2, 110, -1⟩]

/-- Counterexample to C2 for optimization.py: its `objective` has no
minimum-activity check — on a series producing only 2 trades (< 10) with
valid parameters (fast_ma = 3 < slow_ma = 5) it returns the finite
total_return 1/10 instead of −∞. -/
theorem C2_counterexample :
    (executeTrades demo3).length = 2 ∧ (2 : ℕ) < 10 ∧
    optimizationObjective 3 5 (fun _ => demo3) = ObjVal.val (1/10) ∧
    ObjVal.val (1/10) ≠ ObjVal.negInf := by
  have htr : executeTrades demo3 =
      [{ entryTime := 1, exitTime := 2, entryPrice := 100, exitPrice := 110,
         side := Side.long, pnl := 1/10 },
       { entryTime := 2, exitTime := 2, entryPrice := 110, exitPrice := 110,
         side := Side.short, pnl := 0 }] := by
    simp [demo3, executeTrades, simLoop, simStep, opposes, openPos, lastBar,
      closeTrade, calcPnl]
    norm_num
  refine ⟨by rw [htr]; rfl, by norm_num, ?_, by simp⟩
  rw [optimizationObjective, if_neg (by norm_num)]
  rw [htr]
  rw [mgmtTotalReturn, if_neg (by simp)]
  norm_num

/-- `BaseStrategy.execute_trades` in strategy_management.py (lines 42-131):
before the loop it checks `if signals.empty: raise ValueError("No signals
generated")`; the raise (re-raised unchanged by the except clause) is
modelled as `Except.error`. -/
def mgmtExecuteTrades (bars : List Bar) : Except String (List Trade) :=
  if bars = [] then Except.error "No signals generated"
  else Except.ok (executeTrades bars)

/-- **C9** (amended): `execute_trades` in strategy_management.py raises a
fatal ValueError on an empty signal series and otherwise returns the complete
ledger of the forward pass; the error is never recovered into a partial
ledger. -/
theorem C9_mgmt_empty_fatal (bars : List Bar) :
    (bars = [] →
      mgmtExecuteTrades bars = Except.error "No signals generated") ∧
    (bars ≠ [] → mgmtExecuteTrades bars = Except.ok (executeTrades bars)) := by
  constructor
  · intro h
    simp [mgmtExecuteTrades, h]
  · intro h
    simp [mgmtExecuteTrades, h]

/-- Witness for C9 at the empty series and at a one-bar series. -/
theorem C9_mgmt_empty_fatal_witness :
    mgmtExecuteTrades [] = Except.error "No signals generated" ∧
    mgmtExecuteTrades [⟨0, 100, 0⟩] =
      Except.ok (executeTrades [⟨0, 100, 0⟩]) :=
  ⟨(C9_mgmt_empty_fatal []).1 rfl,
   (C9_mgmt_empty_fatal [⟨0, 100, 0⟩]).2 (by simp)⟩

/-- Counterexample to C9 as stated for strategy_base.py: its
`execute_trades` has no emptiness check — on an empty series the loop body
never runs and it returns an empty ledger instead of raising a fatal input
error. -/
theorem C9_counterexample : executeTrades [] = [] := rfl

/-- `np.mean`, NaN-aware: `np.mean([])` is NaN, modelled as `none`. -/
def npMean (l : List ℚ) : Option ℚ :=
  if l = [] then none else some (l.sum / l.length)

/-- The `risk_reward_ratio` entry of `calculate_performance` in
strategy_management.py (line 181):
`abs(np.mean(winning_trades) / np.mean(losing_trades)) if losing_trades
else 0`.  NaN (from `np.mean([])` when there are no winning trades)
propagates through the division and `abs`, modelled as `none`. -/
def mgmtRiskRewardRatio (trades : List Trade) : Option ℚ :=
  if trades = [] then some 0
  else
    let profits := trades.map Trade.pnl
    let winning := profits.filter (fun p => 0 < p)
    let losing := profits.filter (fun p => p ≤ 0)
    if losing = [] then some 0
    else
      match npMean winning, npMean losing with
      | some w, some l => some |w / l|
      | _, _ => none

/-- The `avg_win` entry of `calculate_performance` in strategy_management.py
(line 177): mean of the positive pnls, guarded to 0 when there are none. -/
def mgmtAvgWin (trades : List Trade) : ℚ :=
  if trades = [] then 0
  else
    let winning := (trades.map Trade.pnl).filter (fun p => 0 < p)
    if winning = [] then 0 else winning.sum / winning.length

/-- The `avg_loss` entry of `calculate_performance` in strategy_management.py
(line 178): mean of the non-positive pnls, guarded to 0 when there are
none. -/
def mgmtAvgLoss (trades : List Trade) : ℚ :=
  if trades = [] then 0
  else
    let losing := (trades.map Trade.pnl).filter (fun p => p ≤ 0)
    if losing = [] then 0 else losing.sum / losing.length

/-- All-losing two-trade ledger (pnl = [−1/10, −1/5]). -/
def c10Trades : List Trade :=
  [{ entryTime := 0, exitTime := 1, entryPrice := 100, exitPrice := 90,
     side := Side.long, pnl := -1/10 },
   { entryTime := 1, exitTime := 2, entryPrice := 100, exitPrice := 80,
     side := Side.long, pnl := -1/5 }]

/-- **C10** (code bug): on a non-empty ledger with losing trades but no
winning trades, `calculate_performance` in strategy_management.py evaluates
`np.mean([])` — NaN — inside risk_reward_ratio, so that field is NaN
(`none`), not a finite number; avg_win and avg_loss stay finite thanks to
their guards. -/
theorem C10_riskReward_nan :
    mgmtRiskRewardRatio c10Trades = none ∧
    mgmtAvgWin c10Trades = 0 ∧
    mgmtAvgLoss c10Trades = -3/20 := by
  refine ⟨?_, ?_, ?_⟩
  · rw [mgmtRiskRewardRatio, if_neg (by simp [c10Trades])]
    simp [c10Trades, npMean]
  · rw [mgmtAvgWin, if_neg (by simp [c10Trades])]
    simp [c10Trades]
  · rw [mgmtAvgLoss, if_neg (by simp [c10Trades])]
    simp [c10Trades]
    norm_num

/-- One row of `study.trials_dataframe()` as read by `_get_diverse_trials`
(optimization.py lines 237-284): the columns `params_fast_ma`,
`params_slow_ma` and `value`. -/
structure OptunaTrial where
  fastMa : ℚ
  slowMa : ℚ
  value : ℚ
deriving DecidableEq, Repr

/-- `int(round(x))`: Python's round ties to even (banker's rounding). -/
def pyRound (q : ℚ) : ℤ :=
  let f := ⌊q⌋
  let frac := q - f
  if frac < 1/2 then f
  else if 1/2 < frac then f + 1
  else if f % 2 = 0 then f else f + 1

/-- The canonical parameter key `param_key = (fast_ma, slow_ma)` of a trial
(rounded parameter values). -/
def trialKey (t : OptunaTrial) : ℤ × ℤ := (pyRound t.fastMa, pyRound t.slowMa)

/-- Insertion step of `sort_values('value', ascending=False)`. -/
def insertDesc (t : OptunaTrial) : List OptunaTrial → List OptunaTrial
  | [] => [t]
  | u :: us => if u.value < t.value then t :: u :: us else u :: insertDesc t us

/-- `trials_df.sort_values('value', ascending=False)`. -/
def sortDesc (l : List OptunaTrial) : List OptunaTrial := l.foldr insertDesc []

/-- One emitted entry of `top_trials`: the rounded parameters and the trial
value.  (The `trade_stats` recomputed by rerunning the simulator do not
affect which trials are emitted and are omitted.) -/
structure DiverseEntry where
  fastMa : ℤ
  slowMa : ℤ
  value : ℚ
deriving DecidableEq, Repr

/-- The key of an emitted entry. -/
def entryKey (e : DiverseEntry) : ℤ × ℤ := (e.fastMa, e.slowMa)

/-- The scan of `_get_diverse_trials`: walk the sorted rows, emit a trial
when its key is unused and fewer than 5 results have been emitted, recording
the key in `used_params`. -/
def diverseLoop : List OptunaTrial → List (ℤ × ℤ) → List DiverseEntry →
    List DiverseEntry
  | [], _, out => out
  | t :: ts, used, out =>
      if trialKey t ∉ used ∧ out.length < 5 then
        diverseLoop ts (trialKey t :: used)
          (out ++ [⟨(trialKey t).1, (trialKey t).2, t.value⟩])
      else diverseLoop ts used out

/-- `StrategyOptimizer._get_diverse_trials` (optimization.py lines 237-284;
the variant in strategy_optimizer.py lines 233-268 has the same scan with a
sorted-tuple key): top-5 value-sorted trials deduplicated by rounded
parameter key. -/
def getDiverseTrials (trials : List OptunaTrial) : List DiverseEntry :=
  diverseLoop (sortDesc trials) [] []

lemma insertDesc_perm (t : OptunaTrial) (l : List OptunaTrial) :
    (insertDesc t l).Perm (t :: l) := by
  induction l with
  | nil => simp [insertDesc]
  | cons u us ih =>
    by_cases h : u.value < t.value
    · simp [insertDesc, h]
    · simp only [insertDesc, if_neg h]
      exact (ih.cons u).trans (List.Perm.swap t u us)

lemma sortDesc_perm (l : List OptunaTrial) : (sortDesc l).Perm l := by
  induction l with
  | nil => simp [sortDesc]
  | cons x xs ih =>
    exact (insertDesc_perm x (sortDesc xs)).trans (ih.cons x)

lemma diverseLoop_stop (ts : List OptunaTrial) : ∀ (used : List (ℤ × ℤ))
    (out : List DiverseEntry), ¬ out.length < 5 →
    diverseLoop ts used out = out := by
  induction ts with
  | nil => intro used out _; rfl
  | cons t ts ih =>
    intro used out h
    rw [diverseLoop, if_neg (by tauto)]
    exact ih used out h

lemma diverseLoop_inv (ts : List OptunaTrial) : ∀ (used : List (ℤ × ℤ))
    (out : List DiverseEntry),
    (out.map entryKey).Nodup →
    out.length ≤ 5 →
    (∀ k, k ∈ used ↔ k ∈ out.map entryKey) →
    (diverseLoop ts used out).length ≤ 5 ∧
    ((diverseLoop ts used out).map entryKey).Nodup ∧
    (∀ k ∈ (diverseLoop ts used out).map entryKey,
      k ∈ used ∨ k ∈ ts.map trialKey) ∧
    ((diverseLoop ts used out).length = 5 ∨
      ∀ k, (k ∈ used ∨ k ∈ ts.map trialKey) →
        k ∈ (diverseLoop ts used out).map entryKey) := by
  induction ts with
  | nil =>
    intro used out hnd hle hiff
    refine ⟨by simpa [diverseLoop] using hle, by simpa [diverseLoop] using hnd,
      ?_, ?_⟩
    · intro k hk
      simp only [diverseLoop] at hk
      exact Or.inl ((hiff k).mpr hk)
    · refine Or.inr ?_
      intro k hk
      simp only [diverseLoop]
      rcases hk with hk | hk
      · exact (hiff k).mp hk
      · simp at hk
  | cons t ts ih =>
    intro used out hnd hle hiff
    by_cases hcond : trialKey t ∉ used ∧ out.length < 5
    · rw [diverseLoop, if_pos hcond]
      have e : DiverseEntry := ⟨(trialKey t).1, (trialKey t).2, t.value⟩
      have hkey : entryKey
          (⟨(trialKey t).1, (trialKey t).2, t.value⟩ : DiverseEntry) =
          trialKey t := rfl
      have hnotin : trialKey t ∉ out.map entryKey :=
        fun hmem => hcond.1 ((hiff (trialKey t)).mpr hmem)
      have hnd2 : ((out ++
          [(⟨(trialKey t).1, (trialKey t).2, t.value⟩ : DiverseEntry)]).map
          entryKey).Nodup := by
        simp only [List.map_append, List.map_cons, List.map_nil, hkey]
        rw [List.nodup_append]
        exact ⟨hnd, List.nodup_singleton _, by simpa using hnotin⟩
      have hle2 : (out ++
          [(⟨(trialKey t).1, (trialKey t).2, t.value⟩ : DiverseEntry)]).length
          ≤ 5 := by
        simp
        omega
      have hiff2 : ∀ k, k ∈ trialKey t :: used ↔
          k ∈ (out ++
            [(⟨(trialKey t).1, (trialKey t).2, t.value⟩ : DiverseEntry)]).map
            entryKey := by
        intro k
        simp only [List.map_append, List.map_cons, List.map_nil, hkey,
          List.mem_cons, List.mem_append, List.mem_singleton]
        constructor
        · rintro (h | h)
          · exact Or.inr (by simp [h])
          · exact Or.inl ((hiff k).mp h)
        · rintro (h | h)
          · exact Or.inr ((hiff k).mpr h)
          · simp at h
            exact Or.inl h
      obtain ⟨r1, r2, r3, r4⟩ := ih _ _ hnd2 hle2 hiff2
      refine ⟨r1, r2, ?_, ?_⟩
      · intro k hk
        rcases r3 k hk with h | h
        · rcases List.mem_cons.mp h with h | h
          · exact Or.inr (by simp [h])
          · exact Or.inl h
        · exact Or.inr (by simp [h])
      · rcases r4 with r4 | r4
        · exact Or.inl r4
        · refine Or.inr ?_
          intro k hk
          apply r4
          rcases hk with hk | hk
          · exact Or.inl (List.mem_cons_of_mem _ hk)
          · rcases List.mem_cons.mp hk with hk | hk
            · exact Or.inl (by simp [hk])
            · exact Or.inr hk
    · rw [diverseLoop, if_neg hcond]
      rcases Decidable.not_and_iff_or_not.mp hcond with hused | hlen
      · have hused : trialKey t ∈ used := Decidable.not_not.mp hused
        obtain ⟨r1, r2, r3, r4⟩ := ih used out hnd hle hiff
        refine ⟨r1, r2, ?_, ?_⟩
        · intro k hk
          rcases r3 k hk with h | h
          · exact Or.inl h
          · exact Or.inr (by simp [h])
        · rcases r4 with r4 | r4
          · exact Or.inl r4
          · refine Or.inr ?_
            intro k hk
            apply r4
            rcases hk with hk | hk
            · exact Or.inl hk
            · rcases List.mem_cons.mp hk with hk | hk
              · exact Or.inl (hk ▸ hused)
              · exact Or.inr hk
      · have hstop := diverseLoop_stop ts used out hlen
        rw [hstop]
        refine ⟨hle, hnd, ?_, Or.inl (by omega)⟩
        intro k hk
        exact Or.inl ((hiff k).mpr hk)

/-- **C8**: `_get_diverse_trials` scans the value-sorted trials, returns at
most 5 results, never two results with the same rounded parameter key, and
returns exactly 3 results when the trial set has exactly 3 distinct keys. -/
theorem C8_diverse (trials : List OptunaTrial) :
    (getDiverseTrials trials).length ≤ 5 ∧
    ((getDiverseTrials trials).map entryKey).Nodup ∧
    ((trials.map trialKey).dedup.length = 3 →
      (getDiverseTrials trials).length = 3) := by
  obtain ⟨h5, hnd, horig, hfin⟩ :=
    diverseLoop_inv (sortDesc trials) [] [] (by simp) (by simp) (by simp)
  simp only [getDiverseTrials]
  refine ⟨h5, hnd, ?_⟩
  intro h3
  have hperm : ((sortDesc trials).map trialKey).Perm
      (trials.map trialKey) := (sortDesc_perm trials).map trialKey
  have hkeys_sub : ∀ k ∈ (diverseLoop (sortDesc trials) [] []).map entryKey,
      k ∈ trials.map trialKey := by
    intro k hk
    rcases horig k hk with h | h
    · simp at h
    · exact hperm.mem_iff.mp h
  have hcard : (trials.map trialKey).toFinset.card = 3 := by
    rw [List.card_toFinset]
    exact h3
  have hndcard : ((diverseLoop (sortDesc trials) [] []).map
      entryKey).toFinset.card =
      ((diverseLoop (sortDesc trials) [] []).map entryKey).length := by
    rw [List.card_toFinset, hnd.dedup]
  have hsub : ((diverseLoop (sortDesc trials) [] []).map entryKey).toFinset ⊆
      (trials.map trialKey).toFinset := by
    intro k hk
    rw [List.mem_toFinset] at hk ⊢
    exact hkeys_sub k hk
  have hlen_eq : (diverseLoop (sortDesc trials) [] []).length =
      ((diverseLoop (sortDesc trials) [] []).map entryKey).length := by simp
  have hle3 : (diverseLoop (sortDesc trials) [] []).length ≤ 3 := by
    have := Finset.card_le_card hsub
    omega
  rcases hfin with h5eq | hall
  · omega
  · have hsup : (trials.map trialKey).toFinset ⊆
        ((diverseLoop (sortDesc trials) [] []).map entryKey).toFinset := by
      intro k hk
      rw [List.mem_toFinset] at hk ⊢
      exact hall k (Or.inr (hperm.mem_iff.mpr hk))
    have heq : ((diverseLoop (sortDesc trials) [] []).map entryKey).toFinset =
        (trials.map trialKey).toFinset :=
      Finset.Subset.antisymm hsub hsup
    have := congrArg Finset.card heq
    omega

/-- Four trials over exactly 3 distinct rounded parameter keys. -/
def c8Trials : List OptunaTrial :=
  [⟨3, 10, 5⟩, ⟨3, 10, 1⟩, ⟨4, 12, 3⟩, ⟨5, 20, 2⟩]

/-- Witness for C8: the 4-trial set with 3 distinct keys yields exactly 3
results. -/
theorem C8_diverse_witness : (getDiverseTrials c8Trials).length = 3 :=
  (C8_diverse c8Trials).2.2 (by
    have hmap : c8Trials.map trialKey =
        [(3, 10), (3, 10), (4, 12), (5, 20)] := by
      norm_num [c8Trials, trialKey, pyRound]
    rw [hmap]
    decide)

/-- Modelled from the spec: the optuna TPE sampler used by both optimizer
files is external library code, not part of this repository.  Per §4.3 the
sequential model-based proposer "must support a deterministic seed for
reproducibility" with a seeded random warm-up: we model the parameter
proposed for trial index `t` as a deterministic integer in [lo, hi] mixed
from the sampler seed and `t`. -/
def tpeProposal (seed t lo hi : ℕ) : ℕ :=
  lo + (seed * 1103515245 + t * 12345) % (hi + 1 - lo)

/-- `study.optimize(..., n_trials=n)`: evaluate the proposal of every trial
index, recording (params, objective value) per trial. -/
def bayesTrials (seed n lo hi : ℕ) (objective : ℕ → ObjVal) :
    List (ℕ × ObjVal) :=
  (List.range n).map (fun t =>
    let p := tpeProposal seed t lo hi
    (p, objective p))

/-- Strictly better objective value (−∞ loses to any finite value). -/
def objBetter (a b : ObjVal) : Bool :=
  match a, b with
  | ObjVal.val _, ObjVal.negInf => true
  | ObjVal.val x, ObjVal.val y => decide (y < x)
  | _, _ => false

/-- `study.best_trial` (hence best_params/best_value): the earliest trial
attaining the maximal objective value. -/
def bestTrial (trials : List (ℕ × ObjVal)) : Option (ℕ × ObjVal) :=
  trials.foldl (fun best t =>
    match best with
    | none => some t
    | some b => if objBetter t.2 b.2 then some t else some b) none

/-- `StrategyOptimizer._bayesian_optimization` (strategy_optimizer.py lines
87-93): `optuna.create_study(direction='maximize')` passes no sampler and NO
seed, so the effective sampler seed comes from ambient entropy — modelled as
an extra input that the run's configuration does not determine. -/
def bayesNoSeed (entropy n lo hi : ℕ) (objective : ℕ → ObjVal) :
    Option (ℕ × ObjVal) :=
  bestTrial (bayesTrials entropy n lo hi objective)

/-- `StrategyOptimizer.optimize` (optimization.py lines 92-98): the study is
built with `TPESampler(n_startup_trials=20, seed=42)`; the sampler seed is
the constant 42, so ambient entropy is ignored. -/
def bayesSeeded (entropy n lo hi : ℕ) (objective : ℕ → ObjVal) :
    Option (ℕ × ObjVal) :=
  bestTrial (bayesTrials 42 n lo hi objective)

/-- **C6** (amended): for the seeded study of optimization.py, any two
Bayesian runs with identical configuration, identical data and identical
strategy (same trial count, range and objective) return the same best trial,
whatever the ambient entropy of each run. -/
theorem C6_seeded_deterministic (e1 e2 n lo hi : ℕ)
    (objective : ℕ → ObjVal) :
    bayesSeeded e1 n lo hi objective = bayesSeeded e2 n lo hi objective := rfl

/-- Counterexample to C6 for strategy_optimizer.py: its study is created
without any seed, so there is no fixed seed to make runs reproducible — two
runs of the same configuration under different ambient entropy return
different best_params. -/
theorem C6_counterexample :
    bayesNoSeed 0 1 0 9 (fun p => ObjVal.val p) ≠
      bayesNoSeed 1 1 0 9 (fun p => ObjVal.val p) := by
  norm_num [bayesNoSeed, bayesTrials, tpeProposal, bestTrial, List.range_succ]

end OWO
